import Mathlib

/-!
Shallow embedding of `juggernaut.py` (mitsuhiko/python-juggernaut):
the `Juggernaut` event-bus client and the `Roster`/`RedisRoster`
presence tracker, together with proofs checking the natural-language
specification against the code.

The redis backend is modelled as a pure key/value store of string sets
(`RedisState`); the JSON codec (`json.dumps`/`json.loads`) is an external
library and is abstracted: envelopes are kept as structured dictionaries
and the payload decoder is a parameter.  Python dictionaries are
association lists, Python values a small inductive type `PyVal`.
-/

/-- A small model of the Python values that flow through the library:
`None`, booleans, integers, strings and lists. -/
inductive PyVal where
  | none
  | bool (b : Bool)
  | int (n : Int)
  | str (s : String)
  | list (l : List PyVal)
deriving Repr

/-- Python truthiness (`if x:`) for the modelled values. -/
def pyTruthy : PyVal → Bool
  | .none => false
  | .bool b => b
  | .int n => n != 0
  | .str s => !s.isEmpty
  | .list l => !l.isEmpty

mutual

/-- Python 2 `repr` of a modelled value (quote escaping inside string
literals is not modelled; no claim evaluates it on a string containing a
quote). -/
def pyRepr : PyVal → String
  | .none => "None"
  | .bool b => if b then "True" else "False"
  | .int n => toString n
  | .str s => "u" ++ "\x27" ++ s ++ "\x27"
  | .list l => "[" ++ pyReprList l ++ "]"

/-- `repr` of the elements of a list, comma separated. -/
def pyReprList : List PyVal → String
  | [] => ""
  | [x] => pyRepr x
  | x :: y :: xs => pyRepr x ++ ", " ++ pyReprList (y :: xs)

end

/-- Python 2 `unicode(x)`: a string is returned as is, anything else via
its `repr`/`str` form (`unicode(None) = u"None"`, `unicode(42) = u"42"`). -/
def pyUnicode : PyVal → String
  | .str s => s
  | v => pyRepr v

/-- `d.get(k)` on a Python dict modelled as an association list: the value
under `k`, or `None` when the key is absent. -/
def pyDictGet (m : List (String × PyVal)) (k : String) : PyVal :=
  match m.find? (fun p => p.1 == k) with
  | some p => p.2
  | _ => PyVal.none

-- ### The redis model

/-- The redis state the roster uses: every key holds a set of strings,
represented as a duplicate-free list (redis `SADD`/`SREM`/`SCARD`/
`SMEMBERS` are the only commands the code issues against these keys). -/
structure RedisState where
  sets : String → List String

/-- The state of a fresh redis instance: every set is empty. -/
def emptyRedis : RedisState := ⟨fun _ => []⟩

/-- Adding an element to the list model of a redis set: a no-op when it is
already a member (redis `SADD` semantics). -/
def listSadd (l : List String) (v : String) : List String :=
  if v ∈ l then l else l ++ [v]

/-- redis `SADD key v` (the code ignores the numeric reply). -/
def RedisState.sadd (st : RedisState) (key v : String) : RedisState :=
  ⟨fun k => if k = key then listSadd (st.sets k) v else st.sets k⟩

/-- redis `SREM key v` (the code ignores the numeric reply). -/
def RedisState.srem (st : RedisState) (key v : String) : RedisState :=
  ⟨fun k => if k = key then (st.sets k).erase v else st.sets k⟩

/-- redis `SCARD key`: the cardinality of the set under `key`. -/
def RedisState.scard (st : RedisState) (key : String) : Nat :=
  (st.sets key).length

/-- redis `SMEMBERS key`. -/
def RedisState.smembers (st : RedisState) (key : String) : List String :=
  st.sets key

/-- Overwrite one key of the store with an arbitrary set (used to state
that an observation is independent of that key). -/
def RedisState.withKey (st : RedisState) (key : String) (v : List String) :
    RedisState :=
  ⟨fun k => if k = key then v else st.sets k⟩

-- basic lemmas about the redis model

theorem listSadd_ne_nil (l : List String) (v : String) : listSadd l v ≠ [] := by
  unfold listSadd
  split
  · intro h
    subst h
    simp_all
  · simp

theorem mem_listSadd_self (l : List String) (v : String) : v ∈ listSadd l v := by
  unfold listSadd
  split
  · assumption
  · simp

theorem mem_listSadd_of_mem {l : List String} {u : String} (v : String)
    (h : u ∈ l) : u ∈ listSadd l v := by
  unfold listSadd
  split
  · exact h
  · simp [h]

theorem mem_of_mem_listSadd {l : List String} {u v : String}
    (h : u ∈ listSadd l v) : u ∈ l ∨ u = v := by
  unfold listSadd at h
  split at h
  · exact Or.inl h
  · rcases List.mem_append.1 h with h1 | h1
    · exact Or.inl h1
    · simp at h1
      exact Or.inr h1

theorem listSadd_idem (l : List String) (v : String) :
    listSadd (listSadd l v) v = listSadd l v := by
  unfold listSadd
  split
  · simp_all [listSadd]
  · simp

theorem sadd_sets_self (st : RedisState) (key v : String) :
    (st.sadd key v).sets key = listSadd (st.sets key) v := by
  simp [RedisState.sadd]

theorem sadd_sets_other (st : RedisState) {key k : String} (v : String)
    (h : k ≠ key) : (st.sadd key v).sets k = st.sets k := by
  simp [RedisState.sadd, h]

theorem srem_sets_other (st : RedisState) {key k : String} (v : String)
    (h : k ≠ key) : (st.srem key v).sets k = st.sets k := by
  simp [RedisState.srem, h]

-- ### The roster data model

/-- An inbound event envelope `{meta?: {...}, session_id: ...}`.  `meta` is
`none` when the payload has no `meta` entry (or holds `None` there); the
code reads `data['session_id']` directly, so the session identifier is a
mandatory field. -/
structure EventData where
  meta : Option (List (String × PyVal))
  session_id : String

/-- `Roster.get_user_id`: `meta = data.get('meta'); if meta: return
unicode(meta.get(self.user_meta_key))`.  A missing or empty (falsy) `meta`
falls through and returns `None`. -/
def get_user_id (userMetaKey : String) (data : EventData) : Option String :=
  match data.meta with
  | some m => if m.isEmpty then none else some (pyUnicode (pyDictGet m userMetaKey))
  | _ => none

/-- `'%sconnections:%s' % (self.key_prefix, user_id)`: the redis key of a
user's connection set, under the roster's key namespace `ns`. -/
def connKey (ns user_id : String) : String := ns ++ "connections:" ++ user_id

/-- `self.key_prefix + 'online-users'`: the redis key of the online-users
set, under the roster's key namespace `ns`. -/
def onlineKey (ns : String) : String := ns ++ "online-users"

/-- The default `key_prefix` of `RedisRoster.__init__`. -/
def defaultNS : String := "juggernaut-roster:"

/-- The outcome of one roster operation: the redis state after it, and the
arguments of the `on_signed_in` / `on_signed_out` calls it made (the base
hooks are no-ops, so recording the calls captures them completely). -/
structure RosterResult where
  state : RedisState
  signedIn : List String
  signedOut : List String

/-- `RedisRoster.on_subscribe`: `r.sadd(key, data['session_id']); if
r.scard(key) == 0: self.on_signed_in(user_id); r.sadd(self.key_prefix +
'online-users', user_id)`.  Note the count is read *after* the `sadd`. -/
def on_subscribe (ns : String) (st : RedisState) (user_id session_id : String) :
    RosterResult :=
  let key := connKey ns user_id
  let st1 := st.sadd key session_id
  let fired := st1.scard key = 0
  { state := (st1.sadd (onlineKey ns) user_id),
    signedIn := if fired then [user_id] else [],
    signedOut := [] }

/-- `RedisRoster.on_unsubscribe`: `r.srem(key, data['session_id']); if
r.scard(key) == 0: self.on_signed_out(user_id); r.sadd(self.key_prefix +
'online-users', user_id)`.  Note the `sadd` (not `srem`) of the
online-users key inside the zero-count branch. -/
def on_unsubscribe (ns : String) (st : RedisState) (user_id session_id : String) :
    RosterResult :=
  let key := connKey ns user_id
  let st1 := st.srem key session_id
  if st1.scard key = 0 then
    { state := st1.sadd (onlineKey ns) user_id, signedIn := [], signedOut := [user_id] }
  else
    { state := st1, signedIn := [], signedOut := [] }

/-- `RedisRoster.is_user_online`: `scard('%sconnections:%s' % ...) > 0`. -/
def is_user_online (ns : String) (st : RedisState) (user_id : String) : Bool :=
  st.scard (connKey ns user_id) > 0

/-- `RedisRoster.get_online_users`: `smembers(self.key_prefix +
'online-users')`. -/
def get_online_users (ns : String) (st : RedisState) : List String :=
  st.smembers (onlineKey ns)

/-- `Roster.handle_event`: resolve the user id, then dispatch on the event
name; events without a user id, and event names other than `subscribe` /
`unsubscribe`, do nothing. -/
def handle_event (ns userMetaKey : String) (st : RedisState)
    (event : String) (data : EventData) : RosterResult :=
  match get_user_id userMetaKey data with
  | some user_id =>
    if event = "subscribe" then on_subscribe ns st user_id data.session_id
    else if event = "unsubscribe" then on_unsubscribe ns st user_id data.session_id
    else { state := st, signedIn := [], signedOut := [] }
  | _ => { state := st, signedIn := [], signedOut := [] }

/-- The state after `Roster.run` has consumed a finite batch of events
(the store component of folding `handle_event` over the stream). -/
def runEvents (ns userMetaKey : String) (st : RedisState)
    (evs : List (String × EventData)) : RedisState :=
  evs.foldl (fun s e => (handle_event ns userMetaKey s e.1 e.2).state) st

-- key-disjointness facts the invariant proofs need

theorem connKey_ne_onlineKey (ns u : String) : connKey ns u ≠ onlineKey ns := by
  intro h
  have hd := congrArg String.data h
  simp only [connKey, onlineKey, String.data_append, List.append_assoc] at hd
  have h2 := List.append_cancel_left hd
  simp at h2

theorem onlineKey_ne_connKey (ns u : String) : onlineKey ns ≠ connKey ns u :=
  fun h => connKey_ne_onlineKey ns u h.symm

theorem connKey_injective {ns u v : String} (h : connKey ns u = connKey ns v) :
    u = v := by
  have hd := congrArg String.data h
  simp only [connKey, String.data_append, List.append_assoc] at hd
  have h2 := List.append_cancel_left hd
  simp at h2
  exact String.ext h2

-- facts about the two roster operations

theorem on_subscribe_connSet (ns : String) (st : RedisState) (u s : String) :
    (on_subscribe ns st u s).state.sets (connKey ns u) =
      listSadd (st.sets (connKey ns u)) s := by
  simp only [on_subscribe]
  rw [sadd_sets_other _ _ (connKey_ne_onlineKey ns u), sadd_sets_self]

theorem on_subscribe_onlineSet (ns : String) (st : RedisState) (u s : String) :
    (on_subscribe ns st u s).state.sets (onlineKey ns) =
      listSadd (st.sets (onlineKey ns)) u := by
  simp only [on_subscribe]
  rw [sadd_sets_self, sadd_sets_other _ _ (onlineKey_ne_connKey ns u)]

theorem on_subscribe_signedIn_nil (ns : String) (st : RedisState) (u s : String) :
    (on_subscribe ns st u s).signedIn = [] := by
  have h : ¬ (st.sadd (connKey ns u) s).scard (connKey ns u) = 0 := by
    rw [RedisState.scard, sadd_sets_self]
    simpa using listSadd_ne_nil (st.sets (connKey ns u)) s
  simp only [on_subscribe]
  simp [h]

theorem on_unsubscribe_onlineSet (ns : String) (st : RedisState) (u s : String) :
    (on_unsubscribe ns st u s).state.sets (onlineKey ns) = st.sets (onlineKey ns) ∨
    (on_unsubscribe ns st u s).state.sets (onlineKey ns) =
      listSadd (st.sets (onlineKey ns)) u := by
  simp only [on_unsubscribe]
  split
  · right
    rw [sadd_sets_self, srem_sets_other _ _ (onlineKey_ne_connKey ns u)]
  · left
    rw [srem_sets_other _ _ (onlineKey_ne_connKey ns u)]

-- ### Claims about the presence tracker

/-- C1: the claim says `on_subscribe` fires `on_signed_in(user_id)` exactly
once iff the connection count observed *before* adding the session was 0.
The code reads `scard` only *after* the `sadd`, so the count it tests is
never 0 and `on_signed_in` never fires: from a fresh store (count 0 before
the add) the subscribe of `u1`/`s1` fires no sign-in, and in general the
`signedIn` output of `on_subscribe` is always empty. -/
theorem subscribe_never_fires_sign_in :
    emptyRedis.scard (connKey defaultNS "u1") = 0 ∧
    (on_subscribe defaultNS emptyRedis "u1" "s1").signedIn = [] ∧
    ∀ ns st u s, (on_subscribe ns st u s).signedIn = [] :=
  ⟨rfl, on_subscribe_signedIn_nil defaultNS emptyRedis "u1" "s1",
    fun ns st u s => on_subscribe_signedIn_nil ns st u s⟩

/-- C2: the claim says that when the count after the removal is 0,
`on_unsubscribe` fires `on_signed_out(user_id)` once and *removes*
`user_id` from the online-users set.  In the code the zero-count branch
`sadd`s `user_id` into the online-users set instead: after `u1` subscribes
with `s1` and then unsubscribes it, the sign-out fires, the connection set
is empty, yet `u1` is (still) a member of the online-users set. -/
theorem unsubscribe_adds_to_online_users :
    (on_unsubscribe defaultNS (on_subscribe defaultNS emptyRedis "u1" "s1").state
        "u1" "s1").signedOut = ["u1"] ∧
    (on_unsubscribe defaultNS (on_subscribe defaultNS emptyRedis "u1" "s1").state
        "u1" "s1").state.scard (connKey defaultNS "u1") = 0 ∧
    "u1" ∈ (on_unsubscribe defaultNS (on_subscribe defaultNS emptyRedis "u1" "s1").state
        "u1" "s1").state.smembers (onlineKey defaultNS) := by
  refine ⟨by decide, by decide, by decide⟩

/-- C3: the claim says that after every processed event a user is in the
online-users set iff its connection-set cardinality is positive.  Running
the roster from a fresh store over the two events "u1 subscribes s1, u1
unsubscribes s1" leaves `u1` in the online-users set while its connection
set is empty. -/
theorem online_users_set_inconsistent :
    "u1" ∈ (runEvents defaultNS "user_id" emptyRedis
        [("subscribe", ⟨some [("user_id", PyVal.str "u1")], "s1"⟩),
         ("unsubscribe", ⟨some [("user_id", PyVal.str "u1")], "s1"⟩)]).smembers
        (onlineKey defaultNS) ∧
    (runEvents defaultNS "user_id" emptyRedis
        [("subscribe", ⟨some [("user_id", PyVal.str "u1")], "s1"⟩),
         ("unsubscribe", ⟨some [("user_id", PyVal.str "u1")], "s1"⟩)]).scard
        (connKey defaultNS "u1") = 0 := by
  refine ⟨by decide, by decide⟩

/-- C5: the claim says an event whose `meta` mapping lacks the configured
user-identity field is ignored.  In the code `get_user_id` returns
`unicode(meta.get(key))`, which for a missing key is the *string*
`"None"`, not `None`: a subscribe event with a non-empty `meta` that lacks
`user_id` is dispatched and mutates the store under the user identity
`"None"`. -/
theorem meta_without_user_key_not_ignored :
    get_user_id "user_id" ⟨some [("foo", PyVal.int 1)], "s1"⟩ = some "None" ∧
    (handle_event defaultNS "user_id" emptyRedis "subscribe"
        ⟨some [("foo", PyVal.int 1)], "s1"⟩).state.sets (connKey defaultNS "None") =
      ["s1"] ∧
    "None" ∈ (handle_event defaultNS "user_id" emptyRedis "subscribe"
        ⟨some [("foo", PyVal.int 1)], "s1"⟩).state.smembers (onlineKey defaultNS) := by
  refine ⟨by decide, by decide, by decide⟩

/-- C4: delivering the same subscribe event twice (same user and session
identifier) leaves the user's connection count at its value after the
first delivery, and fires no `on_signed_in` on the second delivery. -/
theorem subscribe_idempotent (ns : String) (st : RedisState) (u s : String) :
    (on_subscribe ns (on_subscribe ns st u s).state u s).state.scard (connKey ns u) =
      (on_subscribe ns st u s).state.scard (connKey ns u) ∧
    (on_subscribe ns (on_subscribe ns st u s).state u s).signedIn = [] := by
  refine ⟨?_, on_subscribe_signedIn_nil ns (on_subscribe ns st u s).state u s⟩
  rw [RedisState.scard, RedisState.scard, on_subscribe_connSet,
    on_subscribe_connSet, listSadd_idem]

/-- C6: `is_user_online(user_id)` is true iff the cardinality of the
user's connection set is positive, and it is computed from that set alone:
overwriting the online-users key with an arbitrary set does not change
it. -/
theorem is_user_online_spec (ns : String) (st : RedisState) (u : String)
    (v : List String) :
    (is_user_online ns st u = true ↔ 0 < st.scard (connKey ns u)) ∧
    is_user_online ns (st.withKey (onlineKey ns) v) u = is_user_online ns st u := by
  constructor
  · simp [is_user_online]
  · simp [is_user_online, RedisState.scard, RedisState.withKey,
      connKey_ne_onlineKey ns u]

/-- C9: the online-users set only ever grows: `handle_event` (for any
event and payload) never removes a member from it; `on_subscribe` puts
`user_id` into it on every subscribe, whether or not a sign-in fired; and
`on_unsubscribe` at most adds `user_id` to it, never removes anyone. -/
theorem online_users_monotone (ns umk : String) (st : RedisState)
    (event : String) (data : EventData) (u sid : String) :
    (st.smembers (onlineKey ns)) ⊆
      ((handle_event ns umk st event data).state.smembers (onlineKey ns)) ∧
    u ∈ (on_subscribe ns st u sid).state.smembers (onlineKey ns) ∧
    (st.smembers (onlineKey ns)) ⊆
      ((on_unsubscribe ns st u sid).state.smembers (onlineKey ns)) ∧
    ((on_unsubscribe ns st u sid).state.smembers (onlineKey ns)) ⊆
      listSadd (st.smembers (onlineKey ns)) u := by
  have hsub : ∀ u' s', (st.smembers (onlineKey ns)) ⊆
      ((on_subscribe ns st u' s').state.smembers (onlineKey ns)) := by
    intro u' s' c hc
    rw [RedisState.smembers, on_subscribe_onlineSet]
    exact mem_listSadd_of_mem u' hc
  have hunsub : ∀ u' s', (st.smembers (onlineKey ns)) ⊆
      ((on_unsubscribe ns st u' s').state.smembers (onlineKey ns)) := by
    intro u' s' c hc
    rw [RedisState.smembers]
    rcases on_unsubscribe_onlineSet ns st u' s' with h | h
    · rw [h]; exact hc
    · rw [h]; exact mem_listSadd_of_mem u' hc
  refine ⟨?_, ?_, hunsub u sid, ?_⟩
  · unfold handle_event
    match get_user_id umk data with
    | some user_id =>
      by_cases h1 : event = "subscribe"
      · simp only [h1, if_pos]
        exact hsub user_id data.session_id
      · by_cases h2 : event = "unsubscribe"
        · simp only [h1, h2, if_false, if_pos]
          exact hunsub user_id data.session_id
        · simp only [h1, h2, if_false]
          exact fun c hc => hc
    | none => exact fun c hc => hc
  · rw [RedisState.smembers, on_subscribe_onlineSet]
    exact mem_listSadd_self _ u
  · intro c hc
    rw [RedisState.smembers] at hc
    rcases on_unsubscribe_onlineSet ns st u sid with h | h
    · rw [h] at hc
      exact mem_listSadd_of_mem u hc
    · rw [h] at hc
      rcases mem_of_mem_listSadd hc with h1 | h1
      · exact mem_listSadd_of_mem u h1
      · rw [h1]; exact mem_listSadd_self _ u

/-- C10: `get_user_id` returns the `unicode(...)` coercion of whatever the
`meta` mapping holds under the configured key, so a non-string identity
such as the integer 42 is tracked under the string `"42"`: the subscribe
records its session in the connection set of `"42"` and
`is_user_online("42")` reports true. -/
theorem get_user_id_stringifies (ns umk sid : String) (v : PyVal)
    (st : RedisState) :
    get_user_id umk ⟨some [(umk, v)], sid⟩ = some (pyUnicode v) ∧
    get_user_id umk ⟨some [(umk, PyVal.int 42)], sid⟩ = some "42" ∧
    (handle_event ns umk st "subscribe" ⟨some [(umk, PyVal.int 42)], sid⟩).state.sets
        (connKey ns "42") = listSadd (st.sets (connKey ns "42")) sid ∧
    is_user_online ns (handle_event ns umk st "subscribe"
        ⟨some [(umk, PyVal.int 42)], sid⟩).state "42" = true := by
  have h1 : ∀ w : PyVal, get_user_id umk ⟨some [(umk, w)], sid⟩ = some (pyUnicode w) := by
    intro w
    simp [get_user_id, pyDictGet]
  have h42 : get_user_id umk ⟨some [(umk, PyVal.int 42)], sid⟩ = some "42" := h1 (PyVal.int 42)
  have hdisp : handle_event ns umk st "subscribe" ⟨some [(umk, PyVal.int 42)], sid⟩ =
      on_subscribe ns st "42" sid := by
    unfold handle_event
    rw [h42]
    simp
  refine ⟨h1 v, h42, ?_, ?_⟩
  · rw [hdisp, on_subscribe_connSet]
  · rw [hdisp]
    simp only [is_user_online, RedisState.scard, on_subscribe_connSet]
    simpa using List.length_pos.2 (listSadd_ne_nil (st.sets (connKey ns "42")) sid)

-- ### The Juggernaut event-bus client

/-- A `Juggernaut` instance: the redis connection is external, so only the
configured control-channel `key` (default `juggernaut`) is carried. -/
structure Juggernaut where
  key : String

/-- The `events` class attribute of `Juggernaut`: the channels
`subscribe_listen` subscribes to.  It is a class-level constant — the
instance's configured `key` does not enter the channel names. -/
def Juggernaut.events (_ : Juggernaut) : List String :=
  ["juggernaut:subscribe", "juggernaut:unsubscribe", "juggernaut:custom"]

/-- `s.split(':', 1)`: Python split with maxsplit 1 — the whole string
when it has no `:`, otherwise the part before the first `:` and the whole
remainder after it. -/
def pySplitColonOnce (s : String) : List String :=
  match s.data.dropWhile (fun c => c ≠ ':') with
  | [] => [s]
  | _ :: suf => [String.mk (s.data.takeWhile (fun c => c ≠ ':')), String.mk suf]

/-- The suffix of a channel name after its first `:` delimiter. -/
def suffixAfterColon (s : String) : String :=
  String.mk ((s.data.dropWhile (fun c => c ≠ ':')).tail)

/-- `Juggernaut.subscribe_listen`, run over a finite batch of delivered
broker messages `(channel, raw payload)`: each message yields
`(message['channel'].split(':', 1)[1], json.loads(message['data']))` in
delivery order.  `loads` abstracts `json.loads` (an external library);
the `[1]` index raises `IndexError` on a channel without `:`, modelled as
`none` for the whole run. -/
def subscribe_listen (j : Juggernaut) (loads : String → PyVal) :
    List (String × String) → Option (List (String × PyVal))
  | [] => some []
  | (ch, payload) :: rest =>
    match (pySplitColonOnce ch).get? 1 with
    | some ev => (subscribe_listen j loads rest).map (fun t => (ev, loads payload) :: t)
    | _ => none

/-- Modelled from the spec (for comparison with `Juggernaut.events`): the
claim's channel list — `subscribe`, `unsubscribe` and `custom` under the
instance's configured namespace `key`. -/
def claimedEventChannels (key : String) : List String :=
  [key ++ ":subscribe", key ++ ":unsubscribe", key ++ ":custom"]

/-- C7 counterexample: the claim says the three channels are named under
the instance's configured namespace key; for an instance configured with
key `mykey` the code still subscribes to the hardcoded `juggernaut:*`
channels. -/
theorem events_ignore_configured_key :
    (Juggernaut.mk "mykey").events ≠ claimedEventChannels "mykey" := by
  decide

/-- C7 (amended): `subscribe_listen` subscribes to exactly the three
hardcoded channels `juggernaut:subscribe`, `juggernaut:unsubscribe` and
`juggernaut:custom` (independent of the configured key), and for every
batch of messages delivered on subscribed channels it yields, in delivery
order, one `(event, data)` pair per message whose event is the channel
name's suffix after the first `:` and whose data is the parsed payload. -/
theorem subscribe_listen_spec (j : Juggernaut) (loads : String → PyVal)
    (msgs : List (String × String)) (h : ∀ m ∈ msgs, m.1 ∈ j.events) :
    j.events = ["juggernaut:subscribe", "juggernaut:unsubscribe", "juggernaut:custom"] ∧
    subscribe_listen j loads msgs =
      some (msgs.map (fun m => (suffixAfterColon m.1, loads m.2))) := by
  refine ⟨rfl, ?_⟩
  revert h
  induction msgs with
  | nil => intro h; rfl
  | cons m rest ih =>
    intro h
    obtain ⟨ch, payload⟩ := m
    have hm : ch ∈ j.events := h (ch, payload) (by simp)
    have hch : (pySplitColonOnce ch).get? 1 = some (suffixAfterColon ch) := by
      simp only [Juggernaut.events, List.mem_cons, List.not_mem_nil, or_false] at hm
      rcases hm with h1 | h1 | h1 <;> subst h1 <;> decide
    rw [subscribe_listen, hch, ih (fun m' hm' => h m' (by simp [hm']))]
    rfl

/-- C7 witness: the amended statement at a concrete instance, a concrete
decoder and a concrete one-message batch. -/
theorem subscribe_listen_spec_witness :
    (Juggernaut.mk "juggernaut").events =
      ["juggernaut:subscribe", "juggernaut:unsubscribe", "juggernaut:custom"] ∧
    subscribe_listen (Juggernaut.mk "juggernaut") (fun _ => PyVal.int 7)
        [("juggernaut:subscribe", "p"), ("juggernaut:custom", "q")] =
      some ([("juggernaut:subscribe", "p"), ("juggernaut:custom", "q")].map
        (fun m => (suffixAfterColon m.1, (fun _ => PyVal.int 7) m.2))) :=
  subscribe_listen_spec (Juggernaut.mk "juggernaut") (fun _ => PyVal.int 7)
    [("juggernaut:subscribe", "p"), ("juggernaut:custom", "q")] (by decide)

-- ### Juggernaut.publish and its envelope

/-- The first-occurrence deduplication of a list: the distinct elements a
Python set ends up holding, in first-insertion order.  Feeding exactly
these into the hash table below is equivalent to inserting the whole raw
list, because inserting an already-present element leaves a CPython set
table unchanged (the probe finds the equal entry and writes nothing). -/
def dedupFirst (l : List String) : List String :=
  l.foldl listSadd []

/-- 2^64, the width of CPython's `long`/`size_t` arithmetic on a 64-bit
build (all hash and probe arithmetic below wraps modulo it). -/
def twoPow64 : Nat := 18446744073709551616

/-- CPython 2.7's `string_hash` (64-bit, hash randomization off, its
default): `x = s[0] << 7`, then `x = (1000003*x) ^ ch` over all bytes,
then `x ^= len(s)`, with `-1` remapped to `-2`; the empty string hashes
to 0.  Characters are taken as their code points (the byte values of the
ASCII strings the library handles). -/
def py2Hash (s : String) : Nat :=
  match s.data with
  | [] => 0
  | c0 :: _ =>
    let x0 := (c0.toNat * 128) % twoPow64
    let x1 := s.data.foldl (fun x c => Nat.xor ((1000003 * x) % twoPow64) c.toNat) x0
    let x2 := Nat.xor x1 s.data.length
    if x2 = twoPow64 - 1 then twoPow64 - 2 else x2

/-- The probe loop of CPython 2.7's `set_insert_key`: `i = i*5 + perturb
+ 1` (unmasked, mod 2^64), slot `i & mask`, `perturb >>= 5` each round,
until an empty slot is found.  The fuel bound is a totality device only:
CPython's loop always terminates because the table is never full, and on
every input this model evaluates, the fuel is never exhausted (the
`Py2Table.insert` fallback below keeps the function total regardless). -/
def py2ProbeAux (slots : List (Option String)) (mask : Nat) :
    Nat → Nat → Nat → Option Nat
  | 0, _, _ => Option.none
  | fuel + 1, i, perturb =>
    let i' := (5 * i + perturb + 1) % twoPow64
    match slots.get? (i' % (mask + 1)) with
    | some Option.none => some (i' % (mask + 1))
    | _ => py2ProbeAux slots mask fuel i' (perturb / 32)

/-- The slot `set_insert_key` stores a new key in: first probe `hash &
mask`, then the perturbed sequence (`perturb` starts at the hash). -/
def py2FindSlot (slots : List (Option String)) (mask h : Nat) : Option Nat :=
  match slots.get? (h % (mask + 1)) with
  | some Option.none => some (h % (mask + 1))
  | _ => py2ProbeAux slots mask (64 * (mask + 1)) (h % (mask + 1)) h

/-- A CPython set table: a power-of-two array of slots.  `overflow` is a
model artifact that only the fuel-exhaustion fallback of
`Py2Table.insert` can populate; it stays empty on every real run. -/
structure Py2Table where
  slots : List (Option String)
  overflow : List String

/-- A fresh table of `size` empty slots (CPython starts sets at 8). -/
def py2EmptyTable (size : Nat) : Py2Table :=
  ⟨List.replicate size Option.none, []⟩

/-- Insert one new (not-yet-present) key: store it in the empty slot the
probe sequence finds.  The overflow fallback keeps the model total if the
probe fuel were ever exhausted (it never is on a real table). -/
def Py2Table.insert (t : Py2Table) (s : String) : Py2Table :=
  match py2FindSlot t.slots (t.slots.length - 1) (py2Hash s) with
  | some idx => { t with slots := t.slots.set idx (some s) }
  | _ => { t with overflow := t.overflow ++ [s] }

/-- The table's contents in iteration order: slots in index order (this
is exactly how CPython's set iterator walks the table). -/
def tableElems (t : Py2Table) : List String :=
  t.slots.filterMap id ++ t.overflow

/-- `set_table_resize`'s size computation: the smallest power of two
starting from 8 that exceeds `minused` (the fuel of 64 doublings covers
every representable size). -/
def growSize (minused : Nat) : Nat → Nat → Nat
  | 0, sz => sz
  | fuel + 1, sz => if sz ≤ minused then growSize minused fuel (2 * sz) else sz

/-- `set_table_resize`: re-insert every entry, in old-table order, into a
fresh table of the grown size. -/
def py2Resize (t : Py2Table) (minused : Nat) : Py2Table :=
  (tableElems t).foldl Py2Table.insert (py2EmptyTable (growSize minused 64 8))

/-- One `set_add_key` of a new key: insert, then resize when the fill
reaches 2/3 of the table (`fill*3 >= (mask+1)*2`), growing to four times
the used count (twice above 50000 entries). -/
def py2Step (t : Py2Table) (s : String) : Py2Table :=
  let t' := t.insert s
  let fill := (tableElems t').length
  if 3 * fill ≥ 2 * t'.slots.length then
    py2Resize t' (if fill > 50000 then 2 * fill else 4 * fill)
  else t'

/-- `list(set(l))` under CPython 2.7 semantics: insert the elements in
order into a size-8 table (duplicates are no-ops, captured by
`dedupFirst`), resizing per `set_add_key`, then read the table back in
slot order.  This is the concrete — unsorted — iteration order the
source's `publish` serializes. -/
def py2SetList (l : List String) : List String :=
  tableElems ((dedupFirst l).foldl py2Step (py2EmptyTable 8))

/-- `d[k] = v` semantics of one key of Python `dict.update`: overwrite the
value in place when the key is present, append the pair otherwise. -/
def dictUpdate (d : List (String × PyVal)) (k : String) (v : PyVal) :
    List (String × PyVal) :=
  if d.any (fun p => p.1 == k) then
    d.map (fun p => if p.1 == k then (k, v) else p)
  else d ++ [(k, v)]

/-- `d.get(k)`-style lookup on the envelope dict, `none` when absent. -/
def dictLookup (d : List (String × PyVal)) (k : String) : Option PyVal :=
  (d.find? (fun p => p.1 == k)).map (fun p => p.2)

/-- The dict `Juggernaut.publish` builds before `json.dumps`:
`d = {'channels': list(set(channels)), 'data': data}`, then
`d['except'] = except_` when `except_` is truthy (`if except_:`), then
`d.update(options)`.  The `channels` argument is either a single name
(`isinstance(channels, basestring)`) or a list of names. -/
def publishDict (channels : Sum String (List String)) (data : PyVal)
    (except_ : Option PyVal) (options : List (String × PyVal)) :
    List (String × PyVal) :=
  let chs := match channels with | .inl s => [s] | .inr l => l
  let d : List (String × PyVal) :=
    [("channels", PyVal.list ((py2SetList chs).map PyVal.str)), ("data", data)]
  let d := match except_ with
    | some e => if pyTruthy e then d ++ [("except", e)] else d
    | _ => d
  options.foldl (fun acc kv => dictUpdate acc kv.1 kv.2) d

/-- `Juggernaut.publish`: build the envelope, serialize it (`json.dumps`
is an external library; the envelope is kept structured) and issue exactly
one `redis.publish(self.key, data)`.  The result is the list of broker
publish calls `(channel, payload)` the method makes. -/
def Juggernaut.publish (j : Juggernaut) (channels : Sum String (List String))
    (data : PyVal) (except_ : Option PyVal) (options : List (String × PyVal)) :
    List (String × List (String × PyVal)) :=
  [(j.key, publishDict channels data except_ options)]

-- dictionary lemmas for the publish proofs

theorem dictLookup_cons_self (p : String × PyVal) (d : List (String × PyVal))
    (k : String) (h : (p.1 == k) = true) : dictLookup (p :: d) k = some p.2 := by
  simp [dictLookup, List.find?_cons, h]

theorem dictLookup_cons_ne (p : String × PyVal) (d : List (String × PyVal))
    (k : String) (h : (p.1 == k) = false) : dictLookup (p :: d) k = dictLookup d k := by
  simp [dictLookup, List.find?_cons, h]

theorem find?_update_self (k : String) (v : PyVal) :
    ∀ d : List (String × PyVal), (d.any fun p => p.1 == k) = true →
      dictLookup (d.map (fun p => if p.1 == k then (k, v) else p)) k = some v := by
  intro d
  induction d with
  | nil => intro h; simp at h
  | cons p rest ih =>
    intro h
    rw [List.map_cons]
    cases hp : (p.1 == k) with
    | true =>
      rw [if_pos rfl, dictLookup_cons_self _ _ _ (by simp)]
    | false =>
      rw [if_neg (by simp), dictLookup_cons_ne _ _ _ hp]
      have h2 : (rest.any fun p => p.1 == k) = true := by
        simp only [List.any_cons, hp, Bool.false_or] at h
        exact h
      exact ih h2

theorem dictLookup_dictUpdate_self (d : List (String × PyVal)) (k : String)
    (v : PyVal) : dictLookup (dictUpdate d k v) k = some v := by
  rw [dictUpdate]
  split
  · rename_i h
    exact find?_update_self k v d h
  · rw [dictLookup, List.find?_append]
    rename_i h
    have hnone : d.find? (fun p => p.1 == k) = none := by
      rw [List.find?_eq_none]
      intro p hp
      simp only [List.any_eq_true] at h
      exact fun hk => h ⟨p, hp, hk⟩
    rw [hnone]
    simp [List.find?]

theorem find?_update_ne (k k' : String) (v : PyVal) (h : k' ≠ k) :
    ∀ d : List (String × PyVal),
      dictLookup (d.map (fun p => if p.1 == k then (k, v) else p)) k' =
        dictLookup d k' := by
  intro d
  induction d with
  | nil => rfl
  | cons p rest ih =>
    rw [List.map_cons]
    cases hp : (p.1 == k) with
    | true =>
      have hp1 : p.1 = k := by
        cases p
        simpa using hp
      rw [if_pos rfl, dictLookup_cons_ne _ _ _ (by simp [Ne.symm h]),
        dictLookup_cons_ne _ _ _ (by simp [hp1, Ne.symm h])]
      exact ih
    | false =>
      rw [if_neg (by simp)]
      cases hq : (p.1 == k') with
      | true =>
        rw [dictLookup_cons_self _ _ _ hq, dictLookup_cons_self _ _ _ hq]
      | false =>
        rw [dictLookup_cons_ne _ _ _ hq, dictLookup_cons_ne _ _ _ hq]
        exact ih

theorem dictLookup_dictUpdate_ne (d : List (String × PyVal)) (k k' : String)
    (v : PyVal) (h : k' ≠ k) :
    dictLookup (dictUpdate d k v) k' = dictLookup d k' := by
  rw [dictUpdate]
  split
  · exact find?_update_ne k k' v h d
  · rw [dictLookup, dictLookup, List.find?_append]
    cases hd : d.find? (fun p => p.1 == k') with
    | some p => rfl
    | none =>
      have hkk : (k == k') = false := by simp [Ne.symm h]
      simp [List.find?, hkk]

-- set-deduplication lemmas

theorem mem_foldl_listSadd :
    ∀ (l acc : List String) (c : String),
      c ∈ l.foldl listSadd acc ↔ c ∈ acc ∨ c ∈ l := by
  intro l
  induction l with
  | nil => simp
  | cons x xs ih =>
    intro acc c
    rw [List.foldl_cons, ih]
    constructor
    · rintro (h | h)
      · rcases mem_of_mem_listSadd h with h1 | h1
        · exact Or.inl h1
        · right; simp [h1]
      · right; simp [h]
    · rintro (h | h)
      · exact Or.inl (mem_listSadd_of_mem x h)
      · rcases List.mem_cons.1 h with h1 | h1
        · left; rw [h1]; exact mem_listSadd_self acc x
        · exact Or.inr h1

theorem nodup_listSadd (l : List String) (v : String) (h : l.Nodup) :
    (listSadd l v).Nodup := by
  unfold listSadd
  split
  · exact h
  · rename_i hv
    simp [List.nodup_append, h, hv]

theorem nodup_foldl_listSadd :
    ∀ (l acc : List String), acc.Nodup → (l.foldl listSadd acc).Nodup := by
  intro l
  induction l with
  | nil => intro acc h; exact h
  | cons x xs ih =>
    intro acc h
    rw [List.foldl_cons]
    exact ih _ (nodup_listSadd acc x h)

theorem dedupFirst_mem (l : List String) (c : String) : c ∈ dedupFirst l ↔ c ∈ l := by
  rw [dedupFirst, mem_foldl_listSadd]
  simp

theorem dedupFirst_nodup (l : List String) : (dedupFirst l).Nodup :=
  nodup_foldl_listSadd l [] List.nodup_nil

-- the CPython set model permutes the distinct elements

theorem py2ProbeAux_empty (slots : List (Option String)) (mask : Nat) :
    ∀ (fuel i perturb idx : Nat),
      py2ProbeAux slots mask fuel i perturb = some idx →
      slots.get? idx = some Option.none := by
  intro fuel
  induction fuel with
  | zero => intro i perturb idx h; simp [py2ProbeAux] at h
  | succ n ih =>
    intro i perturb idx h
    rw [py2ProbeAux] at h
    rcases hs : slots.get? (((5 * i + perturb + 1) % twoPow64) % (mask + 1)) with _ | v
    · rw [hs] at h
      exact ih _ _ _ h
    · rcases v with _ | w
      · rw [hs] at h
        injection h with h1
        rw [← h1]
        exact hs
      · rw [hs] at h
        exact ih _ _ _ h

theorem py2FindSlot_empty (slots : List (Option String)) (mask h idx : Nat)
    (he : py2FindSlot slots mask h = some idx) :
    slots.get? idx = some Option.none := by
  rw [py2FindSlot] at he
  rcases hs : slots.get? (h % (mask + 1)) with _ | v
  · rw [hs] at he
    exact py2ProbeAux_empty slots mask _ _ _ _ he
  · rcases v with _ | w
    · rw [hs] at he
      injection he with h1
      rw [← h1]
      exact hs
    · rw [hs] at he
      exact py2ProbeAux_empty slots mask _ _ _ _ he

theorem filterMap_set_perm :
    ∀ (l : List (Option String)) (i : Nat) (a : String),
      l.get? i = some Option.none →
      ((l.set i (some a)).filterMap id).Perm (a :: l.filterMap id) := by
  intro l
  induction l with
  | nil => intro i a h; simp at h
  | cons x rest ih =>
    intro i a h
    cases i with
    | zero =>
      simp only [List.get?_cons_zero, Option.some.injEq] at h
      subst h
      simp
    | succ n =>
      simp only [List.get?_cons_succ] at h
      rw [List.set_cons_succ]
      cases x with
      | none =>
        rw [List.filterMap_cons, List.filterMap_cons]
        exact ih n a h
      | some b =>
        rw [List.filterMap_cons, List.filterMap_cons]
        exact ((ih n a h).cons b).trans (List.Perm.swap a b (rest.filterMap id))

theorem tableElems_insert (t : Py2Table) (s : String) :
    (tableElems (t.insert s)).Perm (s :: tableElems t) := by
  rw [Py2Table.insert]
  rcases hfind : py2FindSlot t.slots (t.slots.length - 1) (py2Hash s) with _ | idx
  · show (t.slots.filterMap id ++ (t.overflow ++ [s])).Perm (s :: tableElems t)
    rw [← List.append_assoc]
    have h1 : (t.slots.filterMap id ++ t.overflow) ++ [s] =
        (t.slots.filterMap id ++ t.overflow) ++ s :: [] := rfl
    rw [h1]
    have h2 := @List.perm_middle String s (t.slots.filterMap id ++ t.overflow) []
    rw [List.append_nil] at h2
    exact h2
  · show ((t.slots.set idx (some s)).filterMap id ++ t.overflow).Perm (s :: tableElems t)
    have h1 := filterMap_set_perm t.slots idx s (py2FindSlot_empty _ _ _ _ hfind)
    have h2 := h1.append_right t.overflow
    rw [tableElems]
    exact h2.trans (by rw [List.cons_append])

theorem tableElems_foldl :
    ∀ (l : List String) (t : Py2Table),
      (tableElems (l.foldl Py2Table.insert t)).Perm (tableElems t ++ l) := by
  intro l
  induction l with
  | nil => intro t; simp
  | cons s rest ih =>
    intro t
    rw [List.foldl_cons]
    have h3 := (ih (t.insert s)).trans ((tableElems_insert t s).append_right rest)
    rw [List.cons_append] at h3
    exact h3.trans List.perm_middle.symm

theorem tableElems_empty (n : Nat) : tableElems (py2EmptyTable n) = [] := by
  rw [tableElems, py2EmptyTable]
  induction n with
  | zero => rfl
  | succ m ih =>
    rw [List.replicate_succ, List.filterMap_cons]
    exact ih

theorem tableElems_resize (t : Py2Table) (m : Nat) :
    (tableElems (py2Resize t m)).Perm (tableElems t) := by
  rw [py2Resize]
  have h1 := tableElems_foldl (tableElems t) (py2EmptyTable (growSize m 64 8))
  rwa [tableElems_empty, List.nil_append] at h1

theorem tableElems_step (t : Py2Table) (s : String) :
    (tableElems (py2Step t s)).Perm (s :: tableElems t) := by
  rw [py2Step]
  split
  · exact (tableElems_resize _ _).trans (tableElems_insert t s)
  · exact tableElems_insert t s

theorem tableElems_foldl_step :
    ∀ (l : List String) (t : Py2Table),
      (tableElems (l.foldl py2Step t)).Perm (tableElems t ++ l) := by
  intro l
  induction l with
  | nil => intro t; simp
  | cons s rest ih =>
    intro t
    rw [List.foldl_cons]
    have h3 := (ih (py2Step t s)).trans ((tableElems_step t s).append_right rest)
    rw [List.cons_append] at h3
    exact h3.trans List.perm_middle.symm

theorem py2SetList_perm (l : List String) :
    (py2SetList l).Perm (dedupFirst l) := by
  rw [py2SetList]
  have h1 := tableElems_foldl_step (dedupFirst l) (py2EmptyTable 8)
  rwa [tableElems_empty, List.nil_append] at h1

theorem py2SetList_mem (l : List String) (c : String) : c ∈ py2SetList l ↔ c ∈ l :=
  ((py2SetList_perm l).mem_iff).trans (dedupFirst_mem l c)

theorem py2SetList_nodup (l : List String) : (py2SetList l).Nodup :=
  ((py2SetList_perm l).nodup_iff).2 (dedupFirst_nodup l)

-- dict.update over a whole options list

theorem dictLookup_foldl_update_of_not_mem (k : String) :
    ∀ (opts d : List (String × PyVal)), (∀ p ∈ opts, p.1 ≠ k) →
      dictLookup (opts.foldl (fun acc kv => dictUpdate acc kv.1 kv.2) d) k =
        dictLookup d k := by
  intro opts
  induction opts with
  | nil => intro d _; rfl
  | cons q rest ih =>
    intro d h
    rw [List.foldl_cons, ih _ (fun p hp => h p (List.mem_cons_of_mem q hp))]
    exact dictLookup_dictUpdate_ne d q.1 k q.2
      (fun hk => h q (List.mem_cons_self q rest) hk.symm)

theorem dictLookup_foldl_update_of_mem (k : String) (v : PyVal) :
    ∀ (opts d : List (String × PyVal)), (opts.map Prod.fst).Nodup →
      (k, v) ∈ opts →
      dictLookup (opts.foldl (fun acc kv => dictUpdate acc kv.1 kv.2) d) k =
        some v := by
  intro opts
  induction opts with
  | nil => intro d _ hm; simp at hm
  | cons q rest ih =>
    intro d hnd hm
    rw [List.foldl_cons]
    rcases List.mem_cons.1 hm with h1 | h1
    · have hq1 : q.1 = k := by rw [← h1]
      have hkey : q.1 ∉ rest.map Prod.fst := by
        rw [List.map_cons] at hnd
        exact (List.nodup_cons.1 hnd).1
      have hrest : ∀ p ∈ rest, p.1 ≠ k := by
        intro p hp hk
        exact hkey (by rw [hq1, ← hk]; exact List.mem_map_of_mem Prod.fst hp)
      rw [dictLookup_foldl_update_of_not_mem k rest _ hrest, hq1, ← h1,
        dictLookup_dictUpdate_self]
    · have hnd' : (rest.map Prod.fst).Nodup := by
        rw [List.map_cons] at hnd
        exact (List.nodup_cons.1 hnd).2
      exact ih _ hnd' h1

/-- Lexicographic order on character lists (the string order used by the
spec-side sort). -/
def charListLe : List Char → List Char → Bool
  | [], _ => true
  | _ :: _, [] => false
  | a :: as, b :: bs => if a = b then charListLe as bs else decide (a < b)

/-- Insertion into a sorted list of strings (for the spec-side sort). -/
def insertSorted (x : String) : List String → List String
  | [] => [x]
  | y :: ys => if charListLe x.data y.data then x :: y :: ys else y :: insertSorted x ys

/-- Modelled from the spec (for comparison with `publishDict`): the claim's
channels value — the deduplicated channel list, sorted (insertion sort on
the string order). -/
def claimedSortedChannels (l : List String) : List String :=
  (dedupFirst l).foldr insertSorted []

/-- C8 counterexample: the claim says the envelope carries the channels
as a *sorted* deduplicated list.  `list(set(channels))` returns the set's
hash-table iteration order, which is not sorted: at `publish(['b', 'c'],
0)`, CPython 2's string hashes place `'b'` in slot 3 and `'c'` in slot 2
of the size-8 table, so the envelope's channels value is `['c', 'b']` —
not the sorted `['b', 'c']` the claim requires. -/
theorem publish_channels_not_sorted :
    py2SetList ["b", "c"] = ["c", "b"] ∧
    dictLookup (publishDict (Sum.inr ["b", "c"]) (PyVal.int 0) Option.none []) "channels" =
      some (PyVal.list [PyVal.str "c", PyVal.str "b"]) ∧
    claimedSortedChannels ["b", "c"] = ["b", "c"] ∧
    dictLookup (publishDict (Sum.inr ["b", "c"]) (PyVal.int 0) Option.none []) "channels" ≠
      some (PyVal.list ((claimedSortedChannels ["b", "c"]).map PyVal.str)) := by
  refine ⟨by decide, rfl, by decide, ?_⟩
  intro hcontra
  rw [show claimedSortedChannels ["b", "c"] = ["b", "c"] by decide] at hcontra
  simp only [show dictLookup (publishDict (Sum.inr ["b", "c"]) (PyVal.int 0) Option.none [])
      "channels" = some (PyVal.list [PyVal.str "c", PyVal.str "b"]) from rfl,
    List.map_cons, List.map_nil, Option.some.injEq, PyVal.list.injEq,
    List.cons.injEq, PyVal.str.injEq] at hcontra
  exact absurd hcontra.1 (by decide)

/-- C8 (amended): `publish` issues exactly one broker publish on the
configured control channel; a single-string channel argument behaves as
the one-element list; the envelope's `channels` value is the
*deduplicated* channel list in the set's iteration order (not sorted)
whenever the extra options do not override `channels`; the `except` key
is absent when no except argument is given and the extra options do not
supply one; and an extra option always wins for its key — including the
`channels`, `data` and `except` keys. -/
theorem publish_spec (j : Juggernaut) (l : List String) (s : String)
    (data : PyVal) (exc : Option PyVal) (options : List (String × PyVal))
    (hnd : (options.map Prod.fst).Nodup) :
    Juggernaut.publish j (Sum.inr l) data exc options =
      [(j.key, publishDict (Sum.inr l) data exc options)] ∧
    publishDict (Sum.inl s) data exc options =
      publishDict (Sum.inr [s]) data exc options ∧
    ((∀ p ∈ options, p.1 ≠ "channels") →
      dictLookup (publishDict (Sum.inr l) data Option.none options) "channels" =
        some (PyVal.list ((py2SetList l).map PyVal.str))) ∧
    (py2SetList l).Nodup ∧
    (∀ c, c ∈ py2SetList l ↔ c ∈ l) ∧
    ((∀ p ∈ options, p.1 ≠ "except") →
      dictLookup (publishDict (Sum.inr l) data Option.none options) "except" =
        Option.none) ∧
    (∀ k v, (k, v) ∈ options →
      dictLookup (publishDict (Sum.inr l) data Option.none options) k = some v) := by
  have h0 : publishDict (Sum.inr l) data Option.none options =
      options.foldl (fun acc kv => dictUpdate acc kv.1 kv.2)
        [("channels", PyVal.list ((py2SetList l).map PyVal.str)), ("data", data)] := rfl
  refine ⟨rfl, rfl, ?_, py2SetList_nodup l, fun c => py2SetList_mem l c, ?_, ?_⟩
  · intro hchan
    rw [h0, dictLookup_foldl_update_of_not_mem "channels" options _ hchan]
    rfl
  · intro hexc
    rw [h0, dictLookup_foldl_update_of_not_mem "except" options _ hexc]
    rfl
  · intro k v hkv
    rw [h0]
    exact dictLookup_foldl_update_of_mem k v options _ hnd hkv

/-- C8 witness: the amended statement at a concrete call —
`publish(['b', 'a', 'b'], 7, color=2, **{'except': ['s1']})` on an
instance with the default key; the extra options override the `except`
key, exercising the last-write-wins conjunct on a shared key. -/
theorem publish_spec_witness :
    Juggernaut.publish (Juggernaut.mk "juggernaut") (Sum.inr ["b", "a", "b"])
        (PyVal.int 7) Option.none
        [("except", PyVal.list [PyVal.str "s1"]), ("color", PyVal.int 2)] =
      [("juggernaut", publishDict (Sum.inr ["b", "a", "b"]) (PyVal.int 7)
        Option.none [("except", PyVal.list [PyVal.str "s1"]), ("color", PyVal.int 2)])] ∧
    publishDict (Sum.inl "c") (PyVal.int 7) Option.none
        [("except", PyVal.list [PyVal.str "s1"]), ("color", PyVal.int 2)] =
      publishDict (Sum.inr ["c"]) (PyVal.int 7) Option.none
        [("except", PyVal.list [PyVal.str "s1"]), ("color", PyVal.int 2)] ∧
    ((∀ p ∈ [("except", PyVal.list [PyVal.str "s1"]), ("color", PyVal.int 2)],
        p.1 ≠ "channels") →
      dictLookup (publishDict (Sum.inr ["b", "a", "b"]) (PyVal.int 7) Option.none
          [("except", PyVal.list [PyVal.str "s1"]), ("color", PyVal.int 2)]) "channels" =
        some (PyVal.list ((py2SetList ["b", "a", "b"]).map PyVal.str))) ∧
    (py2SetList ["b", "a", "b"]).Nodup ∧
    (∀ c, c ∈ py2SetList ["b", "a", "b"] ↔ c ∈ ["b", "a", "b"]) ∧
    ((∀ p ∈ [("except", PyVal.list [PyVal.str "s1"]), ("color", PyVal.int 2)],
        p.1 ≠ "except") →
      dictLookup (publishDict (Sum.inr ["b", "a", "b"]) (PyVal.int 7) Option.none
          [("except", PyVal.list [PyVal.str "s1"]), ("color", PyVal.int 2)]) "except" =
        Option.none) ∧
    (∀ k v, (k, v) ∈ [("except", PyVal.list [PyVal.str "s1"]), ("color", PyVal.int 2)] →
      dictLookup (publishDict (Sum.inr ["b", "a", "b"]) (PyVal.int 7) Option.none
          [("except", PyVal.list [PyVal.str "s1"]), ("color", PyVal.int 2)]) k = some v) :=
  publish_spec (Juggernaut.mk "juggernaut") ["b", "a", "b"] "c" (PyVal.int 7)
    Option.none [("except", PyVal.list [PyVal.str "s1"]), ("color", PyVal.int 2)]
    (by decide)
